import Mathlib

/-!
Verification development for the Jacobin JVM core (Go sources).

Shallow embedding conventions:
* Go strings are modelled as `List Char` (the sources only ever inspect them
  character by character, so byte-level versus char-level indexing does not
  change any control flow that the claims depend on).
* A fallible Go call returning `(value, error)` is modelled as `GoResult`,
  whose third constructor `panics` records a Go runtime panic (failed type
  assertion, nil-pointer dereference).
* Calls out of the verified sources (statics registry queries, class loading,
  method-area fetches, JLCmap lookups) are answered by an explicit environment
  record `ResolveEnv`, assumed stable for the duration of one call.
-/

namespace JacobinModel

/-- Result of a Go computation: a value, an error (the Go `(nil, err)` shape --
the error constructor carries no partial results, mirroring the sources which
return nil results together with a non-nil error), or a runtime panic. -/
inductive GoResult (α : Type) where
  | ok (a : α)
  | err (msg : String)
  | panics
deriving Repr

/-- Whether a result is the error case. -/
def GoResult.isErr {α : Type} : GoResult α → Bool
  | .err _ => true
  | _ => false

/-- Field values occurring in object field tables (object.Field.Fvalue).
`fNil` is a nil interface value; `fOther` stands for any dynamic type the
claims do not inspect. -/
inductive FVal where
  | fBytes (s : List Char)
  | fByte (n : Nat)
  | fUint32 (n : Nat)
  | fNil
  | fOther
deriving DecidableEq, Repr

/-- object.Field: a descriptor string and a value. -/
structure ObjField where
  ftype : String
  fvalue : FVal
deriving DecidableEq, Repr

/-- object.Object: interned class-name index plus a field table.  The mark
word is omitted (no claim mentions it).  The Go field table is a map; it is
modelled as an association list where an assignment prepends a binding and a
lookup takes the first binding, which is observationally the map behaviour. -/
structure Obj where
  klassName : Nat
  fieldTable : List (String × ObjField)
deriving DecidableEq, Repr

/-- Go zero value of object.Field, produced by a map lookup on a missing key. -/
def zeroField : ObjField := { ftype := "", fvalue := FVal.fNil }

/-- Field-table lookup with Go map semantics (missing key gives zero value). -/
def ftGet (ft : List (String × ObjField)) (k : String) : ObjField :=
  match ft.find? (fun p => p.1 == k) with
  | some p => p.2
  | none => zeroField

/-- Field-table assignment (map write; the new binding shadows any old one). -/
def ftSet (ft : List (String × ObjField)) (k : String) (f : ObjField) :
    List (String × ObjField) :=
  (k, f) :: ft

/-- Modelled from the spec: the distinguished interned string-pool index of
the class name java/lang/String (types.StringPoolStringIndex; the types
package is outside the given sources).  Its exact numeric value is immaterial
to every claim; only its role as a fixed distinguished index is used. -/
def stringPoolStringIndex : Nat := 2

/-- types.ByteArray (descriptor string of a byte array). -/
def tByteArray : String := "[B"

/-- types.Byte (descriptor string of a byte). -/
def tByte : String := "B"

/-- types.Int (descriptor string of an int). -/
def tInt : String := "I"

/-- object.NewStringObject: an empty string object with the four string
fields, exactly as built by the source (value, coder, hash, hashIsZero). -/
def newStringObject : Obj :=
  { klassName := stringPoolStringIndex,
    fieldTable :=
      ftSet (ftSet (ftSet (ftSet [] "value" { ftype := tByteArray, fvalue := FVal.fBytes [] })
        "coder" { ftype := tByte, fvalue := FVal.fByte 0 })
        "hash" { ftype := tInt, fvalue := FVal.fUint32 0 })
        "hashIsZero" { ftype := tByte, fvalue := FVal.fByte 0 } }

/-- object.StringObjectFromGoString. -/
def stringObjectFromGoString (s : List Char) : Obj :=
  { newStringObject with
    fieldTable := ftSet newStringObject.fieldTable "value"
      { ftype := tByteArray, fvalue := FVal.fBytes s } }

/-- object.GoStringFromStringObject.  The argument is a possibly nil object
pointer.  The source checks nil and the class-name index, then checks the
value field for a nil interface, then performs an unchecked type assertion to
a byte slice; a failed assertion is a panic. -/
def goStringFromStringObject : Option Obj → GoResult (List Char)
  | some obj =>
    if obj.klassName = stringPoolStringIndex then
      match (ftGet obj.fieldTable "value").fvalue with
      | FVal.fNil => GoResult.ok []
      | FVal.fBytes bs => GoResult.ok bs
      | _ => GoResult.panics
    else GoResult.ok []
  | none => GoResult.ok []

/-- object.ByteArrayFromStringObject.  `ok none` is the Go nil slice returned
on the else branch.  Inside the guarded branch the source performs the type
assertion with no nil check, so a nil or non-byte-slice value panics. -/
def byteArrayFromStringObject : Option Obj → GoResult (Option (List Char))
  | some obj =>
    if obj.klassName = stringPoolStringIndex then
      match (ftGet obj.fieldTable "value").fvalue with
      | FVal.fBytes bs => GoResult.ok (some bs)
      | _ => GoResult.panics
    else GoResult.ok none
  | none => GoResult.ok none

/-! ## Descriptor parsing (javaLangInvokeMethodType.go) -/

/-- Go values as stored behind interface values (statics registry entries,
QueryStatic results, JLCmap entries).  `vObjPtr` is a pointer to an
object.Object; every other constructor is a dynamic type whose assertion to
a pointer-to-Object fails.  `vOther` stands for any further dynamic type
(for instance the pointer-to-Jlc value that voidClinit stores). -/
inductive GoVal where
  | vBool (b : Bool)
  | vByte (n : Nat)
  | vInt (n : Int)
  | vInt16 (n : Int)
  | vInt64 (n : Int)
  | vStr (s : List Char)
  | vObjPtr (o : Obj)
  | vOther
deriving DecidableEq, Repr

/-- Index of the first occurrence of a character (strings.IndexRune). -/
def idxOf (c : Char) : List Char → Option Nat
  | [] => none
  | x :: xs => if x = c then some 0 else (idxOf c xs).map (· + 1)

/-- The nine one-character base type descriptors of the source switch. -/
def primChars : List Char := ['B', 'C', 'D', 'F', 'I', 'J', 'S', 'Z', 'V']

/-- getNextTypeDescriptor restricted to inputs that do not begin with an
array marker.  In the source, the array case of getNextTypeDescriptor first
consumes the whole run of leading array markers and then recurses on the
remainder, which therefore never begins with an array marker; that single
recursive call is embedded as a call to this function, making the definition
structurally recursive. -/
def getNextTypeBase (d : List Char) : List Char × Nat :=
  match d with
  | [] => ([], 0)
  | c :: _ =>
    if c ∈ primChars then (d.take 1, 1)
    else if c = 'L' then
      match idxOf ';' d with
      | none => ([], 0)
      | some e => (d.take (e + 1), e + 1)
    else ([], 0)

/-- getNextTypeDescriptor: extract the next full type descriptor and the
number of characters it consumed; width 0 signals a malformed descriptor. -/
def getNextTypeDescriptor (d : List Char) : List Char × Nat :=
  match d with
  | [] => ([], 0)
  | c :: rest =>
    if c = '[' then
      let run := (rest.takeWhile (fun x => x = '[')).length
      let width := (getNextTypeBase (rest.drop run)).2
      if width = 0 then ([], 0)
      else (d.take (1 + run + width), 1 + run + width)
    else getNextTypeBase d

/-- Environment answering the calls that resolveTypeDescriptor makes outside
the given sources, as functions of the class name:
* `queryStatic1` — the first statics.QueryStatic(className, TYPE) call
  (`none` is the not-found case, `some v` the found static's Value);
* `loadClass` — whether classloader.LoadClassFromNameOnly returns nil;
* `methAreaOk` — whether classloader.MethAreaFetch returns a non-nil class
  with a non-nil Data pointer (the source dereferences k.Data.ClInit without
  a nil check, so a false answer is a panic);
* `queryStatic2` — the second QueryStatic call after loading;
* `jlcLookup` — the globals.JLCmap lookup.
The environment is a pure function of the class name, modelling registry
state that is stable across the single call being analysed. -/
structure ResolveEnv where
  queryStatic1 : List Char → Option GoVal
  loadClass : List Char → Bool
  methAreaOk : List Char → Bool
  queryStatic2 : List Char → Option GoVal
  jlcLookup : List Char → Option GoVal

/-- The primitive-wrapper switch of resolveTypeDescriptor: the wrapper class
name for a one-character primitive descriptor, `none` for the default case. -/
def primClassName (t : List Char) : Option (List Char) :=
  if t = ['B'] then some ("java/lang/Byte".data)
  else if t = ['C'] then some ("java/lang/Character".data)
  else if t = ['D'] then some ("java/lang/Double".data)
  else if t = ['F'] then some ("java/lang/Float".data)
  else if t = ['I'] then some ("java/lang/Integer".data)
  else if t = ['J'] then some ("java/lang/Long".data)
  else if t = ['S'] then some ("java/lang/Short".data)
  else if t = ['Z'] then some ("java/lang/Boolean".data)
  else if t = ['V'] then some ("java/lang/Void".data)
  else none

/-- strings.ReplaceAll(typeStr, dot, slash) for single characters. -/
def dotToSlash (t : List Char) : List Char :=
  t.map (fun c => if c = '.' then '/' else c)

/-- The object/array-name normalization of resolveTypeDescriptor: strip a
leading class marker and trailing semicolon when both are present. -/
def stripLSemi (cn : List Char) : List Char :=
  if cn.head? = some 'L' ∧ cn.getLast? = some ';' then (cn.drop 1).dropLast
  else cn

/-- The unchecked Go type assertion value.(pointer to object.Object):
succeeds exactly on `vObjPtr`, otherwise panics. -/
def assertObject : GoVal → GoResult Obj
  | GoVal.vObjPtr o => GoResult.ok o
  | _ => GoResult.panics

/-- resolveTypeDescriptor: convert a type descriptor string into the
java.lang.Class object, consulting the environment for the statics registry,
the class loader, the method area and the JLCmap. -/
def resolveTypeDescriptor (env : ResolveEnv) (typeStr : List Char) : GoResult Obj :=
  match primClassName typeStr with
  | some cn =>
    match env.queryStatic1 cn with
    | some v => assertObject v
    | none =>
      if env.loadClass cn then
        if env.methAreaOk cn then
          match env.queryStatic2 cn with
          | some v => assertObject v
          | none => GoResult.err ("primitive TYPE field not found for " ++ String.mk cn)
        else GoResult.panics
      else GoResult.err ("could not load wrapper class " ++ String.mk cn)
  | none =>
    let cn := stripLSemi (dotToSlash typeStr)
    if env.loadClass cn then
      match env.jlcLookup cn with
      | some v => assertObject v
      | none => GoResult.err ("Class object not found in JLCmap for " ++ String.mk cn)
    else GoResult.err ("could not load class for descriptor " ++ String.mk cn)

/-- The parameter loop of parseDescriptorToClasses, with an explicit fuel
argument to make the recursion structural; the loop consumes at least one
character per iteration, so fuel equal to the segment length (as supplied by
`parseParams`) always suffices and the fuel-exhausted branch is unreachable.
Returns the resolved parameter objects together with the consumed
type-descriptor substrings, in order. -/
def parseParamsAux (env : ResolveEnv) (orig : List Char) :
    Nat → List Char → GoResult (List Obj × List (List Char))
  | _, [] => GoResult.ok ([], [])
  | 0, _ :: _ => GoResult.err "parseParams: fuel exhausted (unreachable)"
  | fuel + 1, d =>
    let tw := getNextTypeDescriptor d
    if tw.2 = 0 then
      GoResult.err ("malformed parameter descriptor in " ++ String.mk orig)
    else
      match resolveTypeDescriptor env tw.1 with
      | GoResult.panics => GoResult.panics
      | GoResult.err m => GoResult.err m
      | GoResult.ok o =>
        match parseParamsAux env orig fuel (d.drop tw.2) with
        | GoResult.panics => GoResult.panics
        | GoResult.err m => GoResult.err m
        | GoResult.ok (os, ss) => GoResult.ok (o :: os, tw.1 :: ss)

/-- The parameter loop at its call site (fuel = segment length). -/
def parseParams (env : ResolveEnv) (orig paramStr : List Char) :
    GoResult (List Obj × List (List Char)) :=
  parseParamsAux env orig paramStr.length paramStr

/-- Successful result of parseDescriptorToClasses.  `returnType` and
`paramTypes` are the two results of the source; `retStr` and `paramStrs`
additionally record the type-descriptor substrings consumed by
getNextTypeDescriptor (the typeStr values handed to resolveTypeDescriptor),
carried for the re-emission law. -/
structure ParseOk where
  returnType : Obj
  paramTypes : List Obj
  retStr : List Char
  paramStrs : List (List Char)

/-- parseDescriptorToClasses: parse a method descriptor and resolve each
type to its Class object. -/
def parseDescriptorToClasses (env : ResolveEnv) (descriptor : List Char) :
    GoResult ParseOk :=
  if descriptor.length = 0 ∨ descriptor.head? ≠ some '(' then
    GoResult.err ("invalid method descriptor: " ++ String.mk descriptor)
  else
    match idxOf ')' descriptor with
    | none =>
      GoResult.err ("invalid method descriptor: missing closing paren in " ++ String.mk descriptor)
    | some endParen =>
      let paramStr := (descriptor.take endParen).drop 1
      let returnStr := descriptor.drop (endParen + 1)
      match parseParams env descriptor paramStr with
      | GoResult.panics => GoResult.panics
      | GoResult.err m => GoResult.err m
      | GoResult.ok (ps, pss) =>
        let tw := getNextTypeDescriptor returnStr
        if tw.2 = 0 ∨ tw.2 ≠ returnStr.length then
          GoResult.err ("malformed return descriptor in " ++ String.mk descriptor)
        else
          match resolveTypeDescriptor env tw.1 with
          | GoResult.panics => GoResult.panics
          | GoResult.err m => GoResult.err m
          | GoResult.ok rt => GoResult.ok ⟨rt, ps, tw.1, pss⟩

/-- The environment property under which no unchecked assertion or
dereference in resolveTypeDescriptor can fire: every value found for a
primitive TYPE static or a JLCmap entry is a pointer to an object.Object,
and a wrapper class that was not yet in the statics registry but loads
successfully is present in the method area with non-nil data. -/
def NoPanicEnv (env : ResolveEnv) : Prop :=
  (∀ cn v, env.queryStatic1 cn = some v → ∃ o, v = GoVal.vObjPtr o) ∧
  (∀ cn v, env.queryStatic2 cn = some v → ∃ o, v = GoVal.vObjPtr o) ∧
  (∀ cn v, env.jlcLookup cn = some v → ∃ o, v = GoVal.vObjPtr o) ∧
  (∀ cn, env.queryStatic1 cn = none → env.loadClass cn = true → env.methAreaOk cn = true)

/-! ## Statics registry (statics.go) -/

/-- statics.Static: a descriptor string (the Go field named Type) and a
value of arbitrary dynamic type. -/
structure Static where
  stype : String
  value : GoVal
deriving DecidableEq, Repr

/-- The statics registry, keyed by ClassName.fieldName. -/
abbrev StaticsMap := String → Option Static

/-- The empty statics registry. -/
def emptyStatics : StaticsMap := fun _ => none

/-- statics.AddStatic: returns the updated registry together with the error
(Go `error`, `none` meaning nil).  The source rejects only the empty name and
otherwise writes the entry into the map. -/
def addStatic (name : String) (s : Static) (m : StaticsMap) :
    StaticsMap × Option String :=
  if name = "" then (m, some "AddStatic: Attempting to add invalid static entry")
  else (fun k => if k = name then some s else m k, none)

/-- Modelled from the spec: types.ConvertGoBoolToJavaBool (the types package
is outside the given sources; the spec and the source comment in statics.go
state that booleans become int64 zero or one). -/
def convertGoBoolToJavaBool (b : Bool) : Int := if b then 1 else 0

/-- statics.GetStaticValue: look up ClassName.fieldName; a missing key makes
the source log and return the error message string itself (as an `any`
value); a bool, byte or int value is converted to int64; every other dynamic
type is returned exactly as stored. -/
def getStaticValue (m : StaticsMap) (className fieldName : String) : GoVal :=
  let key := className ++ "." ++ fieldName
  match m key with
  | none => GoVal.vStr ("GetStaticValue: could not load statics key " ++ key).data
  | some st =>
    match st.value with
    | GoVal.vBool b => GoVal.vInt64 (convertGoBoolToJavaBool b)
    | GoVal.vByte n => GoVal.vInt64 (Int.ofNat n)
    | GoVal.vInt n => GoVal.vInt64 n
    | v => v

/-- Whether a value falls into the default branch of the GetStaticValue
switch (not a bool, byte or int). -/
def getStaticDefaultCase : GoVal → Bool
  | GoVal.vBool _ => false
  | GoVal.vByte _ => false
  | GoVal.vInt _ => false
  | _ => true

/-! ## Intrinsic table (gfunction loaders) -/

/-- ghelpers.GMeth: declared parameter-slot count and the handler, the
latter identified by its Go function name. -/
structure GMeth where
  paramSlots : Nat
  gfunction : String
deriving DecidableEq, Repr

/-- The MethodSignatures map from fully-qualified signature to GMeth. -/
abbrev MSTable := String → Option GMeth

/-- The empty intrinsic table. -/
def msEmpty : MSTable := fun _ => none

/-- One registration: the Go map assignment MethodSignatures at the given
signature.  This is the only registration mechanism the loaders use. -/
def msInsert (t : MSTable) (k : String) (v : GMeth) : MSTable :=
  fun q => if q = k then some v else t q

/-- gfunction.Load_Lang_Runtime: the twenty-four registrations, in source
order. -/
def loadLangRuntime (t : MSTable) : MSTable :=
  let t := msInsert t "java/lang/Runtime.<clinit>()V" ⟨0, "runtimeClinit"⟩
  let t := msInsert t "java/lang/Runtime.<init>()V" ⟨0, "trapFunction"⟩
  let t := msInsert t "java/lang/Runtime.addShutdownHook(Ljava/lang/Thread;)V" ⟨1, "trapFunction"⟩
  let t := msInsert t "java/lang/Runtime.availableProcessors()I" ⟨0, "runtimeAvailableProcessors"⟩
  let t := msInsert t "java/lang/Runtime.exec(Ljava/lang/String;)Ljava/lang/Process;" ⟨1, "trapDeprecated"⟩
  let t := msInsert t "java/lang/Runtime.exec([Ljava/lang/String;)Ljava/lang/Process;" ⟨1, "trapFunction"⟩
  let t := msInsert t "java/lang/Runtime.exec([Ljava/lang/String;[Ljava/lang/String;)Ljava/lang/Process;" ⟨2, "trapFunction"⟩
  let t := msInsert t "java/lang/Runtime.exec([Ljava/lang/String;[Ljava/lang/String;Ljava/io/File;)Ljava/lang/Process;" ⟨3, "trapFunction"⟩
  let t := msInsert t "java/lang/Runtime.exec(Ljava/lang/String;[Ljava/lang/String;)Ljava/lang/Process;" ⟨2, "trapDeprecated"⟩
  let t := msInsert t "java/lang/Runtime.exec(Ljava/lang/String;[Ljava/lang/String;Ljava/io/File;)Ljava/lang/Process;" ⟨3, "trapDeprecated"⟩
  let t := msInsert t "java/lang/Runtime.exit(I)V" ⟨1, "systemExitI"⟩
  let t := msInsert t "java/lang/Runtime.freeMemory()J" ⟨0, "trapFunction"⟩
  let t := msInsert t "java/lang/Runtime.gc()V" ⟨0, "justReturn"⟩
  let t := msInsert t "java/lang/Runtime.getRuntime()Ljava/lang/Runtime;" ⟨0, "runtimeGetRuntime"⟩
  let t := msInsert t "java/lang/Runtime.halt(I)V" ⟨1, "systemExitI"⟩
  let t := msInsert t "java/lang/Runtime.load(Ljava/lang/String;)V" ⟨1, "trapFunction"⟩
  let t := msInsert t "java/lang/Runtime.load0(Ljava/lang/Class;Ljava/lang/String;)V" ⟨2, "trapFunction"⟩
  let t := msInsert t "java/lang/Runtime.loadLibrary(Ljava/lang/String;)V" ⟨1, "trapFunction"⟩
  let t := msInsert t "java/lang/Runtime.loadLibrary0(Ljava/lang/Class;Ljava/lang/String;)V" ⟨2, "trapFunction"⟩
  let t := msInsert t "java/lang/Runtime.maxMemory()J" ⟨0, "maxMemory"⟩
  let t := msInsert t "java/lang/Runtime.removeShutdownHook(Ljava/lang/Thread;)V" ⟨1, "trapFunction"⟩
  let t := msInsert t "java/lang/Runtime.runFinalization()V" ⟨0, "trapFunction"⟩
  let t := msInsert t "java/lang/Runtime.totalMemory()J" ⟨0, "totalMemory"⟩
  let t := msInsert t "java/lang/Runtime.version()Ljava/lang/Runtime/Version;" ⟨0, "trapFunction"⟩
  t

/-- javaLang.Load_Lang_Void: the single registration. -/
def loadLangVoid (t : MSTable) : MSTable :=
  msInsert t "java/lang/Void.<clinit>()V" ⟨0, "voidClinit"⟩

/-- math.MaxInt64. -/
def mathMaxInt64 : Int := 9223372036854775807

/-- gfunction.maxMemory: the intrinsic body behind
java/lang/Runtime.maxMemory()J; it ignores its parameter list. -/
def maxMemory (_ : List GoVal) : GoVal := GoVal.vInt64 mathMaxInt64

/-! ## MethodHandle resolution (classloader, ResolveMethodHandle) -/

/-- The CONSTANT_MethodHandle tag (classloader.MethodHandle; the constant
lives outside the given sources, its JVMS value is 15 and is immaterial). -/
def tagMethodHandle : Nat := 15

/-- The fields of a FetchCPentry result that ResolveMethodHandle reads: the
entry type and, for a MethodHandle entry, AddrVal.entry1 (the reference
kind) and AddrVal.entry2 (the reference index). -/
structure FetchedCPentry where
  entryType : Nat
  entry1 : Nat
  entry2 : Nat
deriving DecidableEq, Repr

/-- The constant pool as ResolveMethodHandle observes it: the CpIndex length
for the bounds check, and FetchCPentry as a function of the index
(FetchCPentry is outside the given sources). -/
structure CPoolModel where
  cpIndexLen : Nat
  fetch : Nat → FetchedCPentry

/-- Observable outcome of ResolveMethodHandle.  The calls to the two
sub-resolvers are reified as values recording the arguments the source
passes them: `fieldHandle refIndex isStatic isSetter` for
resolveFieldHandle and `methodEntry refIndex isStatic isSpecial` for
resolveMethodHandleEntry.  The error constructors carry the data the source
formats into the error message. -/
inductive MHDispatch where
  | fieldHandle (refIndex : Nat) (isStatic isSetter : Bool)
  | methodEntry (refIndex : Nat) (isStatic isSpecial : Bool)
  | errBadIndex (index : Nat)
  | errNotMethodHandle (index : Nat) (entryType : Nat)
  | errInvalidRefKind (kind : Nat)
deriving DecidableEq, Repr

/-- classloader.ResolveMethodHandle: bounds check, entry-type check, then the
nine-way switch on the reference kind.  (The Go index is an int; a negative
index also fails the lower bound, so Nat loses no behaviour here.) -/
def resolveMethodHandle (cp : CPoolModel) (index : Nat) : MHDispatch :=
  if index < 1 ∨ cp.cpIndexLen ≤ index then MHDispatch.errBadIndex index
  else
    let e := cp.fetch index
    if e.entryType ≠ tagMethodHandle then MHDispatch.errNotMethodHandle index e.entryType
    else
      if e.entry1 = 1 then MHDispatch.fieldHandle e.entry2 false false
      else if e.entry1 = 2 then MHDispatch.fieldHandle e.entry2 true false
      else if e.entry1 = 3 then MHDispatch.fieldHandle e.entry2 false true
      else if e.entry1 = 4 then MHDispatch.fieldHandle e.entry2 true true
      else if e.entry1 = 5 then MHDispatch.methodEntry e.entry2 false false
      else if e.entry1 = 6 then MHDispatch.methodEntry e.entry2 true false
      else if e.entry1 = 7 then MHDispatch.methodEntry e.entry2 false true
      else if e.entry1 = 8 then MHDispatch.methodEntry e.entry2 false true
      else if e.entry1 = 9 then MHDispatch.methodEntry e.entry2 false false
      else MHDispatch.errInvalidRefKind e.entry1

/-! ## Concrete fixtures used by counterexamples and witnesses -/

/-- A concrete Class object standing for a resolved java.lang.Class
instance, used to build well-typed environments. -/
def classObjFixture : Obj := { klassName := 7, fieldTable := [] }

/-- The registry state that javaLangVoid.go produces: voidClinit stores the
static java/lang/Void.TYPE whose Value is the pointer-to-Jlc returned by
classloader.MakeJlcEntry — a dynamic type other than pointer-to-Object,
hence `GoVal.vOther`.  (The descriptor string is types.Jlc, whose exact
value is immaterial.) -/
def voidClinitStatics : StaticsMap :=
  (addStatic "java/lang/Void.TYPE" ⟨"jlc", GoVal.vOther⟩ emptyStatics).1

/-- statics.QueryStatic(className, TYPE) against a given registry state:
look up className.TYPE and surface the Value (QueryStatic itself is outside
the given sources; the spec gives query(key) as a plain map lookup). -/
def queryTypeStatic (m : StaticsMap) (cn : List Char) : Option GoVal :=
  (m (String.mk cn ++ ".TYPE")).map Static.value

/-- The environment seen by the descriptor parser after voidClinit has run:
QueryStatic finds java/lang/Void.TYPE holding the non-Object value. -/
def voidClinitEnv : ResolveEnv :=
  { queryStatic1 := queryTypeStatic voidClinitStatics,
    loadClass := fun _ => false,
    methAreaOk := fun _ => false,
    queryStatic2 := fun _ => none,
    jlcLookup := fun _ => none }

/-- A well-typed environment: every lookup answers with a Class object and
loaded classes are present in the method area. -/
def wellTypedEnv : ResolveEnv :=
  { queryStatic1 := fun _ => some (GoVal.vObjPtr classObjFixture),
    loadClass := fun _ => true,
    methAreaOk := fun _ => true,
    queryStatic2 := fun _ => some (GoVal.vObjPtr classObjFixture),
    jlcLookup := fun _ => some (GoVal.vObjPtr classObjFixture) }

/-- A constant pool with a single MethodHandle entry of reference kind 2
(REF_getStatic) and reference index 4 at constant-pool index 1. -/
def cpFixture : CPoolModel :=
  { cpIndexLen := 3,
    fetch := fun i => if i = 1 then ⟨15, 2, 4⟩ else ⟨0, 0, 0⟩ }

/-- The parse result of the descriptor (II)V under `wellTypedEnv`. -/
def parseOkFixture : ParseOk :=
  { returnType := classObjFixture,
    paramTypes := [classObjFixture, classObjFixture],
    retStr := "V".data,
    paramStrs := ["I".data, "I".data] }

/-- A statics registry holding one entry whose value has the Go dynamic type
int16 (AddStatic accepts a value of any dynamic type). -/
def int16Statics : StaticsMap :=
  (addStatic "main.width" ⟨"S", GoVal.vInt16 3⟩ emptyStatics).1

/-- An object whose class-name index is not the java/lang/String index. -/
def notAStringObj : Obj := { klassName := 9, fieldTable := [] }

/-! ## Lemmas about the lexer -/

/-- A found character index is inside the string. -/
theorem idxOf_lt_length {c : Char} : ∀ {l : List Char} {n : Nat},
    idxOf c l = some n → n < l.length := by
  intro l
  induction l with
  | nil => intro n h; simp [idxOf] at h
  | cons x xs ih =>
    intro n h
    by_cases hx : x = c
    · simp [idxOf, hx] at h
      subst h
      simp
    · simp [idxOf, hx] at h
      obtain ⟨m, hm, hmn⟩ := h
      have := ih hm
      simp
      omega

/-- The string splits at a found character index. -/
theorem idxOf_drop {c : Char} : ∀ {l : List Char} {n : Nat}, idxOf c l = some n →
    l.drop n = c :: l.drop (n + 1) := by
  intro l
  induction l with
  | nil => intro n h; simp [idxOf] at h
  | cons x xs ih =>
    intro n h
    by_cases hx : x = c
    · simp [idxOf, hx] at h
      subst h hx
      simp
    · simp [idxOf, hx] at h
      obtain ⟨m, hm, hmn⟩ := h
      subst hmn
      simpa using ih hm

/-- An absent character is never found. -/
theorem idxOf_none {c : Char} : ∀ {l : List Char}, c ∉ l → idxOf c l = none := by
  intro l
  induction l with
  | nil => intro _; rfl
  | cons x xs ih =>
    intro h
    simp only [List.mem_cons, not_or] at h
    rw [idxOf, if_neg (fun hh => h.1 hh.symm), ih h.2]
    rfl

/-- A successful non-array lex consumes a non-empty prefix of the input. -/
theorem getNextTypeBase_spec (d : List Char) (h : (getNextTypeBase d).2 ≠ 0) :
    (getNextTypeBase d).1 = d.take (getNextTypeBase d).2 ∧
    1 ≤ (getNextTypeBase d).2 ∧ (getNextTypeBase d).2 ≤ d.length := by
  match d with
  | [] => simp [getNextTypeBase] at h
  | c :: rest =>
    rw [getNextTypeBase] at h ⊢
    by_cases hp : c ∈ primChars
    · simp [hp]
    · rw [if_neg hp] at h ⊢
      by_cases hL : c = 'L'
      · rw [if_pos hL] at h ⊢
        match he : idxOf ';' (c :: rest) with
        | none => simp [he] at h
        | some e =>
          have := idxOf_lt_length he
          simp only [List.length_cons] at this ⊢
          simp [he] at h ⊢
          omega
      · simp [hL] at h

/-- A successful lex consumes a non-empty prefix of the input. -/
theorem getNextTypeDescriptor_spec (d : List Char) (h : (getNextTypeDescriptor d).2 ≠ 0) :
    (getNextTypeDescriptor d).1 = d.take (getNextTypeDescriptor d).2 ∧
    1 ≤ (getNextTypeDescriptor d).2 ∧ (getNextTypeDescriptor d).2 ≤ d.length := by
  match d with
  | [] => simp [getNextTypeDescriptor] at h
  | c :: rest =>
    rw [getNextTypeDescriptor] at h ⊢
    by_cases hc : c = '['
    · rw [if_pos hc] at h ⊢
      simp only [eq_self_iff_true] at h ⊢
      by_cases hw : (getNextTypeBase (rest.drop ((rest.takeWhile (fun x => x = '[')).length))).2 = 0
      · simp only [hw, if_true, ite_true] at h
        exact absurd rfl h
      · have hb := getNextTypeBase_spec _ hw
        have hpfx : rest.takeWhile (fun x => x = '[') <+: rest :=
          List.takeWhile_prefix _
        have hrl : ((rest.takeWhile (fun x => x = '[')).length) ≤ rest.length :=
          hpfx.length_le
        have hdl : (rest.drop ((rest.takeWhile (fun x => x = '[')).length)).length =
            rest.length - ((rest.takeWhile (fun x => x = '[')).length) := by simp
        simp only [hw, if_false, ite_false] at h ⊢
        refine ⟨trivial, by omega, ?_⟩
        simp only [List.length_cons]
        omega
    · rw [if_neg hc] at h ⊢
      exact getNextTypeBase_spec _ h

/-! ## Lemmas about panic-freedom of the parser -/

/-- Under a well-typed environment no branch of resolveTypeDescriptor
panics. -/
theorem resolveTypeDescriptor_no_panic (env : ResolveEnv) (h : NoPanicEnv env)
    (t : List Char) : resolveTypeDescriptor env t ≠ GoResult.panics := by
  obtain ⟨h1, h2, h3, h4⟩ := h
  rw [resolveTypeDescriptor]
  rcases hp : primClassName t with _ | cn
  · simp only
    by_cases hl : env.loadClass (stripLSemi (dotToSlash t)) = true
    · simp only [hl, if_true]
      rcases hj : env.jlcLookup (stripLSemi (dotToSlash t)) with _ | v
      · simp only [hj]
        exact fun hh => GoResult.noConfusion hh
      · obtain ⟨o, rfl⟩ := h3 _ v hj
        simp only [hj, assertObject]
        exact fun hh => GoResult.noConfusion hh
    · simp only [hl, if_false, Bool.false_eq_true]
      exact fun hh => GoResult.noConfusion hh
  · simp only
    rcases hq : env.queryStatic1 cn with _ | v
    · simp only [hq]
      by_cases hl : env.loadClass cn = true
      · simp only [hl, h4 cn hq hl, if_true]
        rcases hq2 : env.queryStatic2 cn with _ | v
        · simp only [hq2]
          exact fun hh => GoResult.noConfusion hh
        · obtain ⟨o, rfl⟩ := h2 cn v hq2
          simp only [hq2, assertObject]
          exact fun hh => GoResult.noConfusion hh
      · simp only [hl, if_false, Bool.false_eq_true]
        exact fun hh => GoResult.noConfusion hh
    · obtain ⟨o, rfl⟩ := h1 cn v hq
      simp only [hq, assertObject]
      exact fun hh => GoResult.noConfusion hh

/-- Under a well-typed environment the parameter loop never panics. -/
theorem parseParamsAux_no_panic (env : ResolveEnv) (h : NoPanicEnv env)
    (orig : List Char) :
    ∀ (fuel : Nat) (d : List Char),
      parseParamsAux env orig fuel d ≠ GoResult.panics := by
  intro fuel
  induction fuel with
  | zero =>
    intro d
    match d with
    | [] => exact fun hh => GoResult.noConfusion hh
    | x :: xs => exact fun hh => GoResult.noConfusion hh
  | succ fuel ih =>
    intro d
    match d with
    | [] => exact fun hh => GoResult.noConfusion hh
    | x :: xs =>
      rw [parseParamsAux]
      by_cases hw : (getNextTypeDescriptor (x :: xs)).2 = 0
      · simp only [hw, if_true]
        exact fun hh => GoResult.noConfusion hh
      · rw [if_neg hw]
        rcases hr : resolveTypeDescriptor env (getNextTypeDescriptor (x :: xs)).1 with o | m | _
        · simp only [hr]
          rcases hrec : parseParamsAux env orig fuel ((x :: xs).drop (getNextTypeDescriptor (x :: xs)).2)
            with ⟨os, ss⟩ | m | _
          · simp only [hrec]
            exact fun hh => GoResult.noConfusion hh
          · simp only [hrec]
            exact fun hh => GoResult.noConfusion hh
          · exact absurd hrec (ih _)
        · simp only [hr]
          exact fun hh => GoResult.noConfusion hh
        · exact absurd hr (resolveTypeDescriptor_no_panic env ⟨h.1, h.2.1, h.2.2.1, h.2.2.2⟩ _)
      exact fun hh => List.noConfusion hh

/-- Under a well-typed environment parseDescriptorToClasses never panics. -/
theorem parseDescriptorToClasses_no_panic (env : ResolveEnv) (h : NoPanicEnv env)
    (d : List Char) : parseDescriptorToClasses env d ≠ GoResult.panics := by
  rw [parseDescriptorToClasses]
  by_cases hg : d.length = 0 ∨ d.head? ≠ some '('
  · rw [if_pos hg]
    exact fun hh => GoResult.noConfusion hh
  · rw [if_neg hg]
    rcases he : idxOf ')' d with _ | endParen
    · exact fun hh => GoResult.noConfusion hh
    · simp only
      rcases hp : parseParams env d ((d.take endParen).drop 1) with ⟨ps, pss⟩ | m | _
      · simp only [hp]
        by_cases hret : (getNextTypeDescriptor (d.drop (endParen + 1))).2 = 0 ∨
            (getNextTypeDescriptor (d.drop (endParen + 1))).2 ≠ (d.drop (endParen + 1)).length
        · rw [if_pos hret]
          exact fun hh => GoResult.noConfusion hh
        · rw [if_neg hret]
          rcases hr : resolveTypeDescriptor env (getNextTypeDescriptor (d.drop (endParen + 1))).1
            with rt | m | _
          · simp only [hr]
            exact fun hh => GoResult.noConfusion hh
          · simp only [hr]
            exact fun hh => GoResult.noConfusion hh
          · exact absurd hr (resolveTypeDescriptor_no_panic env h _)
      · simp only [hp]
        exact fun hh => GoResult.noConfusion hh
      · exact absurd hp (parseParamsAux_no_panic env h d _ _)

/-- The consumed parameter substrings concatenate back to the parameter
segment. -/
theorem parseParamsAux_join (env : ResolveEnv) (orig : List Char) :
    ∀ (fuel : Nat) (d : List Char) (os : List Obj) (ss : List (List Char)),
      d.length ≤ fuel →
      parseParamsAux env orig fuel d = GoResult.ok (os, ss) → ss.flatten = d := by
  intro fuel
  induction fuel with
  | zero =>
    intro d os ss hlen hok
    have hd : d = [] := by
      cases d with
      | nil => rfl
      | cons x xs => simp at hlen
    subst hd
    have : ss = [] := by
      rw [parseParamsAux] at hok
      exact (Prod.mk.injEq _ _ _ _ ▸ (GoResult.ok.injEq _ _ ▸ hok)).2.symm ▸ rfl
    subst this
    rfl
  | succ fuel ih =>
    intro d os ss hlen hok
    cases d with
    | nil =>
      rw [parseParamsAux] at hok
      have := (GoResult.ok.injEq _ _ ▸ hok)
      have hss : ss = [] := by
        injection hok with hpair
        injection hpair with ho hs
        exact hs.symm
      subst hss
      rfl
    | cons x xs =>
      rw [parseParamsAux] at hok
      swap
      · exact fun hh => List.noConfusion hh
      by_cases hw : (getNextTypeDescriptor (x :: xs)).2 = 0
      · rw [if_pos hw] at hok
        exact absurd hok (fun hh => GoResult.noConfusion hh)
      · rw [if_neg hw] at hok
        rcases hr : resolveTypeDescriptor env (getNextTypeDescriptor (x :: xs)).1 with o | m | _
        · rw [hr] at hok
          rcases hrec : parseParamsAux env orig fuel ((x :: xs).drop (getNextTypeDescriptor (x :: xs)).2)
            with ⟨os2, ss2⟩ | m | _
          · rw [hrec] at hok
            injection hok with hpair
            injection hpair with ho hs
            have hspec := getNextTypeDescriptor_spec (x :: xs) hw
            have hlen2 : ((x :: xs).drop (getNextTypeDescriptor (x :: xs)).2).length ≤ fuel := by
              simp only [List.length_drop, List.length_cons] at *
              omega
            have hjoin := ih _ _ _ hlen2 hrec
            subst hs
            simp only [List.flatten_cons]
            rw [hjoin, hspec.1, List.take_append_drop]
          · rw [hrec] at hok
            exact absurd hok (fun hh => GoResult.noConfusion hh)
          · rw [hrec] at hok
            exact absurd hok (fun hh => GoResult.noConfusion hh)
        · rw [hr] at hok
          exact absurd hok (fun hh => GoResult.noConfusion hh)
        · rw [hr] at hok
          exact absurd hok (fun hh => GoResult.noConfusion hh)

/-! ## Lemmas about the rejection conditions of the parser -/

/-- Input not opening with the parameter-list marker is rejected (this covers
the empty input as well). -/
theorem parse_err_no_open (env : ResolveEnv) (d : List Char) (h : d.head? ≠ some '(') :
    (parseDescriptorToClasses env d).isErr = true := by
  rw [parseDescriptorToClasses, if_pos (Or.inr h)]
  rfl

/-- Input with no closing paren anywhere is rejected. -/
theorem parse_err_no_close (env : ResolveEnv) (d : List Char) (h : ')' ∉ d) :
    (parseDescriptorToClasses env d).isErr = true := by
  rw [parseDescriptorToClasses]
  by_cases hg : d.length = 0 ∨ d.head? ≠ some '('
  · rw [if_pos hg]; rfl
  · rw [if_neg hg, idxOf_none h]
    rfl

/-- Under a well-typed environment, a return segment that lexes to width 0 or
to fewer characters than it contains (trailing junk) is rejected. -/
theorem parse_err_bad_return (env : ResolveEnv) (d : List Char) (e : Nat)
    (hnp : NoPanicEnv env) (he : idxOf ')' d = some e)
    (hbad : (getNextTypeDescriptor (d.drop (e + 1))).2 = 0 ∨
      (getNextTypeDescriptor (d.drop (e + 1))).2 ≠ (d.drop (e + 1)).length) :
    (parseDescriptorToClasses env d).isErr = true := by
  rw [parseDescriptorToClasses]
  by_cases hg : d.length = 0 ∨ d.head? ≠ some '('
  · rw [if_pos hg]; rfl
  · rw [if_neg hg]
    simp only [he]
    rcases hp : parseParams env d (List.drop 1 (List.take e d)) with ⟨ps, pss⟩ | m | _
    · simp only [hp]
      rw [if_pos hbad]
      rfl
    · simp only [hp]
      rfl
    · exact absurd hp (parseParamsAux_no_panic env hnp d _ _)

/-- A class-form descriptor with no terminating semicolon fails to lex. -/
theorem getNext_L_no_semi (d : List Char) (hL : d.head? = some 'L') (h : ';' ∉ d) :
    getNextTypeDescriptor d = ([], 0) := by
  cases d with
  | nil => simp at hL
  | cons c rest =>
    simp only [List.head?_cons, Option.some.injEq] at hL
    subst hL
    rw [getNextTypeDescriptor, if_neg (by decide)]
    rw [getNextTypeBase]
    rw [if_neg (by decide), if_pos rfl, idxOf_none h]

/-- A run of array markers with no base type after it fails to lex. -/
theorem getNext_brackets_no_base (d : List Char) (hne : d ≠ [])
    (h : ∀ c ∈ d, c = '[') : getNextTypeDescriptor d = ([], 0) := by
  cases d with
  | nil => exact absurd rfl hne
  | cons c rest =>
    have hc : c = '[' := h c (List.mem_cons_self c rest)
    subst hc
    rw [getNextTypeDescriptor, if_pos rfl]
    have hrest : rest.takeWhile (fun x => x = '[') = rest := by
      rw [List.takeWhile_eq_self_iff]
      intro x hx
      simp [h x (List.mem_cons_of_mem _ hx)]
    simp [hrest, List.drop_length, getNextTypeBase]

/-- The concretely well-typed environment satisfies the no-panic property. -/
theorem wellTypedEnv_noPanic : NoPanicEnv wellTypedEnv := by
  refine ⟨fun cn v hv => ⟨classObjFixture, (Option.some.inj hv).symm⟩,
    fun cn v hv => ⟨classObjFixture, (Option.some.inj hv).symm⟩,
    fun cn v hv => ⟨classObjFixture, (Option.some.inj hv).symm⟩,
    fun cn _ _ => rfl⟩

/-! ## The claims -/

/-- C1: the descriptor parser rejects, with a non-nil error and nil results
(the error constructor carries no results), every input that is empty or
does not open with the parameter-list marker, every input with no closing
paren, and — under an environment whose external lookups are well typed —
every input whose return segment fails to lex or lexes to fewer characters
than it contains (trailing junk); the lexer itself returns width 0 for a
class form with no terminating semicolon and for a run of array markers with
no base type; in particular each of the five inputs listed by the spec is
rejected under every environment. -/
theorem descriptorParser_rejects_malformed :
    (∀ env : ResolveEnv,
      (parseDescriptorToClasses env "".data).isErr = true ∧
      (parseDescriptorToClasses env "()".data).isErr = true ∧
      (parseDescriptorToClasses env "(I".data).isErr = true ∧
      (parseDescriptorToClasses env "I)V".data).isErr = true ∧
      (parseDescriptorToClasses env "(Ljava/lang/String)V".data).isErr = true) ∧
    (∀ (env : ResolveEnv) (d : List Char), d.head? ≠ some '(' →
      (parseDescriptorToClasses env d).isErr = true) ∧
    (∀ (env : ResolveEnv) (d : List Char), ')' ∉ d →
      (parseDescriptorToClasses env d).isErr = true) ∧
    (∀ (env : ResolveEnv) (d : List Char) (e : Nat), NoPanicEnv env →
      idxOf ')' d = some e →
      (getNextTypeDescriptor (d.drop (e + 1))).2 = 0 ∨
        (getNextTypeDescriptor (d.drop (e + 1))).2 ≠ (d.drop (e + 1)).length →
      (parseDescriptorToClasses env d).isErr = true) ∧
    (∀ d : List Char, d.head? = some 'L' → ';' ∉ d →
      getNextTypeDescriptor d = ([], 0)) ∧
    (∀ d : List Char, d ≠ [] → (∀ c ∈ d, c = '[') →
      getNextTypeDescriptor d = ([], 0)) := by
  refine ⟨fun env => ⟨rfl, rfl, rfl, rfl, rfl⟩, parse_err_no_open, parse_err_no_close,
    fun env d e hnp he hbad => parse_err_bad_return env d e hnp he hbad,
    getNext_L_no_semi, getNext_brackets_no_base⟩

/-- C1 witness: the rejection theorem applied at concrete inputs and
environments. -/
theorem descriptorParser_rejects_malformed_witness :
    (parseDescriptorToClasses voidClinitEnv "(I".data).isErr = true ∧
    (parseDescriptorToClasses voidClinitEnv "I)V".data).isErr = true ∧
    (parseDescriptorToClasses wellTypedEnv "(I)VV".data).isErr = true ∧
    getNextTypeDescriptor "Ljava/lang/String".data = ([], 0) ∧
    getNextTypeDescriptor "[[".data = ([], 0) := by
  refine ⟨(descriptorParser_rejects_malformed.1 voidClinitEnv).2.2.1,
    descriptorParser_rejects_malformed.2.1 voidClinitEnv "I)V".data (by decide),
    descriptorParser_rejects_malformed.2.2.2.1 wellTypedEnv "(I)VV".data 2
      wellTypedEnv_noPanic (by decide) (by decide),
    descriptorParser_rejects_malformed.2.2.2.2.1 "Ljava/lang/String".data (by decide) (by decide),
    descriptorParser_rejects_malformed.2.2.2.2.2 "[[".data (by decide) (by decide)⟩

/-- C2 counterexample: after voidClinit has stored the pointer-to-Jlc value
under java/lang/Void.TYPE (the registry state built by the source itself),
parsing the well-formed descriptor ()V panics at the unchecked type
assertion on the TYPE static, so the parser is not panic-free as claimed. -/
theorem parseDescriptor_panics_after_voidClinit :
    parseDescriptorToClasses voidClinitEnv "()V".data = GoResult.panics := rfl

/-- C2 (amended): the descriptor parser is total — it returns a parse result
or an error, never panicking — provided every value found for a primitive
TYPE static or a JLCmap entry is a pointer to an Object and every loaded
wrapper class is present in the method area. -/
theorem parseDescriptor_total_no_panic (env : ResolveEnv) (d : List Char)
    (h : NoPanicEnv env) :
    (∃ r, parseDescriptorToClasses env d = GoResult.ok r) ∨
    (∃ m, parseDescriptorToClasses env d = GoResult.err m) := by
  rcases hres : parseDescriptorToClasses env d with r | m | _
  · exact Or.inl ⟨r, rfl⟩
  · exact Or.inr ⟨m, rfl⟩
  · exact absurd hres (parseDescriptorToClasses_no_panic env h d)

/-- C2 witness: totality applied to a concrete well-typed environment. -/
theorem parseDescriptor_total_no_panic_witness :
    (∃ r, parseDescriptorToClasses wellTypedEnv "(I)V".data = GoResult.ok r) ∨
    (∃ m, parseDescriptorToClasses wellTypedEnv "(I)V".data = GoResult.err m) :=
  parseDescriptor_total_no_panic wellTypedEnv "(I)V".data wellTypedEnv_noPanic

/-- C3: for every descriptor on which parseDescriptorToClasses succeeds,
concatenating the open paren, the parameter type-descriptor substrings
consumed by getNextTypeDescriptor in order, the close paren and the consumed
return substring re-emits exactly the input descriptor. -/
theorem descriptor_reemission_roundtrip (env : ResolveEnv) (d : List Char) (r : ParseOk)
    (hok : parseDescriptorToClasses env d = GoResult.ok r) :
    ('(' :: r.paramStrs.flatten) ++ ')' :: r.retStr = d := by
  rw [parseDescriptorToClasses] at hok
  by_cases hg : d.length = 0 ∨ d.head? ≠ some '('
  · rw [if_pos hg] at hok
    exact absurd hok (fun hh => GoResult.noConfusion hh)
  · rw [if_neg hg] at hok
    push_neg at hg
    obtain ⟨hne, hhead⟩ := hg
    rcases he : idxOf ')' d with _ | e
    · rw [he] at hok
      exact absurd hok (fun hh => GoResult.noConfusion hh)
    · simp only [he] at hok
      rcases hp : parseParams env d (List.drop 1 (List.take e d)) with ⟨ps, pss⟩ | m | _
      · simp only [hp] at hok
        by_cases hret : (getNextTypeDescriptor (d.drop (e + 1))).2 = 0 ∨
            (getNextTypeDescriptor (d.drop (e + 1))).2 ≠ (d.drop (e + 1)).length
        · rw [if_pos hret] at hok
          exact absurd hok (fun hh => GoResult.noConfusion hh)
        · rw [if_neg hret] at hok
          push_neg at hret
          obtain ⟨hw, hlenr⟩ := hret
          rcases hr : resolveTypeDescriptor env (getNextTypeDescriptor (d.drop (e + 1))).1
            with rt | m | _
          · simp only [hr] at hok
            injection hok with hrr
            subst hrr
            have hjoin : pss.flatten = List.drop 1 (List.take e d) :=
              parseParamsAux_join env d _ _ _ _ (Nat.le_refl _) hp
            have hspec := getNextTypeDescriptor_spec (d.drop (e + 1)) hw
            have hts : (getNextTypeDescriptor (d.drop (e + 1))).1 = d.drop (e + 1) := by
              rw [hspec.1, hlenr, List.take_length]
            have hdrop : d.drop e = ')' :: d.drop (e + 1) := idxOf_drop he
            cases d with
            | nil => simp at hhead
            | cons c tail =>
              simp only [List.head?_cons, Option.some.injEq] at hhead
              subst hhead
              have he1 : 1 ≤ e := by
                rcases Nat.eq_zero_or_pos e with h0 | h1
                · subst h0
                  simp at hdrop
                · exact h1
              obtain ⟨k, rfl⟩ : ∃ k, e = k + 1 := ⟨e - 1, by omega⟩
              simp only [ParseOk.paramStrs, ParseOk.retStr, hts, hjoin]
              simp only [List.take_succ_cons, List.drop_succ_cons] at hdrop ⊢
              conv_rhs => rw [← List.take_append_drop k tail, hdrop]
              simp [List.cons_append]
          · simp only [hr] at hok
            exact absurd hok (fun hh => GoResult.noConfusion hh)
          · simp only [hr] at hok
            exact absurd hok (fun hh => GoResult.noConfusion hh)
      · simp only [hp] at hok
        exact absurd hok (fun hh => GoResult.noConfusion hh)
      · simp only [hp] at hok
        exact absurd hok (fun hh => GoResult.noConfusion hh)

/-- C3 witness: the round trip applied to the concrete successful parse of
(II)V. -/
theorem descriptor_reemission_roundtrip_witness :
    ('(' :: parseOkFixture.paramStrs.flatten) ++ ')' :: parseOkFixture.retStr =
      "(II)V".data :=
  descriptor_reemission_roundtrip wellTypedEnv "(II)V".data parseOkFixture rfl

/-- C4: on a valid in-bounds index holding a MethodHandle constant-pool
entry, ResolveMethodHandle dispatches by reference kind — kinds 1 to 4 go to
field-handle resolution with the static and setter flags false-false,
true-false, false-true and true-true respectively; kinds 5 to 9 go to
method-invocation-handle resolution; and every kind outside 1 to 9 yields
the invalid-reference-kind error naming that kind. -/
theorem resolveMethodHandle_dispatch_by_kind (cp : CPoolModel) (index : Nat)
    (h1 : 1 ≤ index) (h2 : index < cp.cpIndexLen)
    (hmh : (cp.fetch index).entryType = tagMethodHandle) :
    ((cp.fetch index).entry1 = 1 →
      resolveMethodHandle cp index = MHDispatch.fieldHandle (cp.fetch index).entry2 false false) ∧
    ((cp.fetch index).entry1 = 2 →
      resolveMethodHandle cp index = MHDispatch.fieldHandle (cp.fetch index).entry2 true false) ∧
    ((cp.fetch index).entry1 = 3 →
      resolveMethodHandle cp index = MHDispatch.fieldHandle (cp.fetch index).entry2 false true) ∧
    ((cp.fetch index).entry1 = 4 →
      resolveMethodHandle cp index = MHDispatch.fieldHandle (cp.fetch index).entry2 true true) ∧
    (5 ≤ (cp.fetch index).entry1 → (cp.fetch index).entry1 ≤ 9 →
      ∃ st sp, resolveMethodHandle cp index = MHDispatch.methodEntry (cp.fetch index).entry2 st sp) ∧
    ((cp.fetch index).entry1 < 1 ∨ 9 < (cp.fetch index).entry1 →
      resolveMethodHandle cp index = MHDispatch.errInvalidRefKind (cp.fetch index).entry1) := by
  have hguard : ¬(index < 1 ∨ cp.cpIndexLen ≤ index) := by omega
  rw [resolveMethodHandle, if_neg hguard]
  simp only [hmh, ne_eq, not_true_eq_false, if_false, ite_false, reduceIte]
  refine ⟨fun hk => by simp [hk], fun hk => by simp [hk], fun hk => by simp [hk],
    fun hk => by simp [hk], fun ha hb => ?_, fun hout => ?_⟩
  · interval_cases hk : (cp.fetch index).entry1
    · exact ⟨false, false, by simp⟩
    · exact ⟨true, false, by simp⟩
    · exact ⟨false, true, by simp⟩
    · exact ⟨false, true, by simp⟩
    · exact ⟨false, false, by simp⟩
  · have n1 : (cp.fetch index).entry1 ≠ 1 := by omega
    have n2 : (cp.fetch index).entry1 ≠ 2 := by omega
    have n3 : (cp.fetch index).entry1 ≠ 3 := by omega
    have n4 : (cp.fetch index).entry1 ≠ 4 := by omega
    have n5 : (cp.fetch index).entry1 ≠ 5 := by omega
    have n6 : (cp.fetch index).entry1 ≠ 6 := by omega
    have n7 : (cp.fetch index).entry1 ≠ 7 := by omega
    have n8 : (cp.fetch index).entry1 ≠ 8 := by omega
    have n9 : (cp.fetch index).entry1 ≠ 9 := by omega
    simp [n1, n2, n3, n4, n5, n6, n7, n8, n9]

/-- C4 witness: the dispatch theorem applied to a concrete pool whose entry
has reference kind 2 (REF_getStatic). -/
theorem resolveMethodHandle_dispatch_by_kind_witness :
    resolveMethodHandle cpFixture 1 = MHDispatch.fieldHandle 4 true false := by
  have hd := (resolveMethodHandle_dispatch_by_kind cpFixture 1 (by decide) (by decide)
    (by decide)).2.1 (by decide)
  simpa using hd

/-- C5: converting a Go string to a String object and back is the identity. -/
theorem goString_stringObject_roundtrip (s : List Char) :
    goStringFromStringObject (some (stringObjectFromGoString s)) = GoResult.ok s := rfl

/-- C6 counterexample: a static entry whose stored value has dynamic type
int16 — a sub-int integer type — is returned exactly as stored, not widened
to int64, refuting the claim that every sub-int integer type is widened. -/
theorem getStaticValue_int16_not_widened :
    getStaticValue int16Statics "main" "width" = GoVal.vInt16 3 ∧
    GoVal.vInt16 3 ≠ GoVal.vInt64 3 := ⟨rfl, by decide⟩

/-- C6 (amended): for every entry present in the statics registry,
GetStaticValue converts a stored bool to int64 one or zero, widens a stored
byte or int to int64, and returns a value of every other dynamic type —
including other narrow integer types such as int16 — exactly as stored. -/
theorem getStaticValue_normalization (m : StaticsMap) (cn fn : String) (st : Static)
    (hm : m (cn ++ "." ++ fn) = some st) :
    (∀ b, st.value = GoVal.vBool b →
      getStaticValue m cn fn = GoVal.vInt64 (convertGoBoolToJavaBool b)) ∧
    (∀ n, st.value = GoVal.vByte n → getStaticValue m cn fn = GoVal.vInt64 (Int.ofNat n)) ∧
    (∀ i, st.value = GoVal.vInt i → getStaticValue m cn fn = GoVal.vInt64 i) ∧
    (getStaticDefaultCase st.value = true → getStaticValue m cn fn = st.value) := by
  rw [getStaticValue]
  simp only [hm]
  refine ⟨fun b hb => by rw [hb], fun n hn => by rw [hn], fun i hi => by rw [hi], fun hd => ?_⟩
  rcases hv : st.value with b | n | i | i | i | s | o | _ <;> rw [hv] at hd <;>
    first
      | rfl
      | simp [getStaticDefaultCase] at hd

/-- C6 witness: the normalization theorem applied to the registry state that
voidClinit builds (the Void TYPE entry is returned as stored). -/
theorem getStaticValue_normalization_witness :
    getStaticValue voidClinitStatics "java/lang/Void" "TYPE" = GoVal.vOther := by
  have h := (getStaticValue_normalization voidClinitStatics "java/lang/Void" "TYPE"
    ⟨"jlc", GoVal.vOther⟩ rfl).2.2.2
  exact h rfl

/-- C7 counterexample: the loaders register by plain map assignment, so
registering a second handler under the already-registered maxMemory
signature silently replaces the first entry and signals no error — the
registration mechanism has no error result at all — refuting the claim that
redefinition is rejected. -/
theorem intrinsic_redefinition_not_rejected :
    loadLangRuntime msEmpty "java/lang/Runtime.maxMemory()J" = some ⟨0, "maxMemory"⟩ ∧
    msInsert (loadLangRuntime msEmpty) "java/lang/Runtime.maxMemory()J" ⟨0, "trapFunction"⟩
      "java/lang/Runtime.maxMemory()J" = some ⟨0, "trapFunction"⟩ ∧
    (GMeth.mk 0 "trapFunction") ≠ GMeth.mk 0 "maxMemory" := ⟨rfl, rfl, by decide⟩

/-- C7 (amended): registering an intrinsic under an already-registered
signature silently replaces the existing entry (Go map assignment semantics)
and leaves every other signature untouched; no error is raised. -/
theorem intrinsic_redefinition_silently_replaces (t : MSTable) (k : String) (g : GMeth) :
    msInsert t k g k = some g ∧ ∀ q, q ≠ k → msInsert t k g q = t q := by
  constructor
  · simp [msInsert]
  · intro q hq
    simp [msInsert, hq]

/-- C7 witness: the replacement theorem applied to the table built by the
Void loader. -/
theorem intrinsic_redefinition_silently_replaces_witness :
    msInsert (loadLangVoid msEmpty) "java/lang/Void.<clinit>()V" ⟨0, "other"⟩
      "java/lang/Void.<clinit>()V" = some ⟨0, "other"⟩ ∧
    msInsert (loadLangVoid msEmpty) "java/lang/Void.<clinit>()V" ⟨0, "other"⟩ "q" =
      loadLangVoid msEmpty "q" :=
  ⟨(intrinsic_redefinition_silently_replaces (loadLangVoid msEmpty) _ _).1,
   (intrinsic_redefinition_silently_replaces (loadLangVoid msEmpty) _ _).2 "q" (by decide)⟩

/-- C8: the maxMemory intrinsic returns the maximum signed 64-bit integer on
every call, for every argument list, and is the handler registered under the
java/lang/Runtime.maxMemory()J signature. -/
theorem maxMemory_returns_max_int64 (args : List GoVal) :
    maxMemory args = GoVal.vInt64 (2 ^ 63 - 1) ∧
    loadLangRuntime msEmpty "java/lang/Runtime.maxMemory()J" = some ⟨0, "maxMemory"⟩ := by
  refine ⟨?_, rfl⟩
  rw [maxMemory, mathMaxInt64]
  norm_num

/-- C9: on a nil argument, and on an object whose class-name index is not
the java/lang/String pool index, GoStringFromStringObject returns the empty
string and ByteArrayFromStringObject returns the nil slice, and neither
panics.  (The non-Object-value case of the claim is not instantiable: both
functions take a pointer-to-Object parameter, so Go's type system admits
only nil or an Object.) -/
theorem stringExtractors_safe_on_bad_input (o : Option Obj)
    (h : o = none ∨ ∃ ob, o = some ob ∧ ob.klassName ≠ stringPoolStringIndex) :
    goStringFromStringObject o = GoResult.ok [] ∧
    byteArrayFromStringObject o = GoResult.ok none := by
  rcases h with rfl | ⟨ob, rfl, hk⟩
  · exact ⟨rfl, rfl⟩
  · rw [goStringFromStringObject, byteArrayFromStringObject]
    rw [if_neg hk, if_neg hk]
    exact ⟨rfl, rfl⟩

/-- C9 witness: the safety theorem applied at the nil argument and at a
concrete object of a different class. -/
theorem stringExtractors_safe_on_bad_input_witness :
    (goStringFromStringObject none = GoResult.ok [] ∧
      byteArrayFromStringObject none = GoResult.ok none) ∧
    (goStringFromStringObject (some notAStringObj) = GoResult.ok [] ∧
      byteArrayFromStringObject (some notAStringObj) = GoResult.ok none) :=
  ⟨stringExtractors_safe_on_bad_input none (Or.inl rfl),
   stringExtractors_safe_on_bad_input (some notAStringObj)
     (Or.inr ⟨notAStringObj, rfl, by decide⟩)⟩

/-- C10: AddStatic returns an error exactly when the name is empty; in the
error case the registry is unchanged, and otherwise the registry afterwards
holds the entry under the name and the call returns nil. -/
theorem addStatic_error_iff_empty_name (name : String) (s : Static) (m : StaticsMap) :
    ((addStatic name s m).2 ≠ none ↔ name = "") ∧
    (name = "" → (addStatic name s m).1 = m) ∧
    (name ≠ "" → (addStatic name s m).1 name = some s ∧ (addStatic name s m).2 = none) := by
  by_cases hn : name = ""
  · subst hn
    refine ⟨?_, fun _ => rfl, fun hne => absurd rfl hne⟩
    simp [addStatic]
  · refine ⟨?_, fun he => absurd he hn, fun _ => ⟨?_, ?_⟩⟩
    · simp [addStatic, hn]
    · simp [addStatic, hn]
    · simp [addStatic, hn]

/-- C10 witness: AddStatic applied at a concrete non-empty and at the empty
name. -/
theorem addStatic_error_iff_empty_name_witness :
    (addStatic "main.x" ⟨"I", GoVal.vInt64 5⟩ emptyStatics).1 "main.x" =
      some ⟨"I", GoVal.vInt64 5⟩ ∧
    (addStatic "main.x" ⟨"I", GoVal.vInt64 5⟩ emptyStatics).2 = none ∧
    (addStatic "" ⟨"I", GoVal.vInt64 5⟩ emptyStatics).1 = emptyStatics :=
  ⟨((addStatic_error_iff_empty_name "main.x" ⟨"I", GoVal.vInt64 5⟩ emptyStatics).2.2
      (by decide)).1,
   ((addStatic_error_iff_empty_name "main.x" ⟨"I", GoVal.vInt64 5⟩ emptyStatics).2.2
      (by decide)).2,
   (addStatic_error_iff_empty_name "" ⟨"I", GoVal.vInt64 5⟩ emptyStatics).2.1 rfl⟩

end JacobinModel
